import Mathlib

/-
Verification of the DCF valuation engine of Proyecto-DCF.

The numeric core lives in src/dcf_core/finanzas.py (growth estimation, FCF
projection, WACC, intrinsic value) and in the classification slice of
src/dcf_core/empresa.py (analizar_empresa).  Python floats are embedded as
real numbers; consequently NaN/Infinity never arise (the float-sanitization
branches of the source are unreachable in the embedding) and real division
is total (the ZeroDivisionError handler of the source has no effect).
-/

namespace DCF

/-- Embeds calcular_wacc (src/dcf_core/finanzas.py lines 31-36):
cost of equity by CAPM, then the traditional WACC formula, with the
degenerate capital structure equity + debt = 0 mapped to 0. -/
noncomputable def calcular_wacc (beta debt equity cost_of_debt tax_rate
    risk_free_rate market_return : ℝ) : ℝ :=
  let cost_of_equity := risk_free_rate + beta * (market_return - risk_free_rate)
  if equity + debt = 0 then 0
  else (equity / (equity + debt)) * cost_of_equity
    + (debt / (equity + debt)) * cost_of_debt * (1 - tax_rate)

/-- Loop body of proyectar_fcf (src/dcf_core/finanzas.py lines 43-57).
The accumulator holds the projections built so far, most recent first, so
its head is proyecciones[-1] and the head of its tail is proyecciones[-2];
an empty tail means the loop index is 1 and prev_prev is fcf_actual. -/
noncomputable def proyectarGo (fcf_actual tasa_crecimiento : ℝ) :
    ℕ → List ℝ → List ℝ
  | 0, proyecciones => proyecciones.reverse
  | n + 1, proyecciones =>
    let fcf :=
      match proyecciones with
      | [] =>
        if 0 < fcf_actual then fcf_actual * (1 + tasa_crecimiento)
        else (-fcf_actual * tasa_crecimiento) + fcf_actual
      | prev :: resto =>
        let prev_prev := match resto with
          | [] => fcf_actual
          | p :: _ => p
        if 0 < prev then prev * (1 + tasa_crecimiento)
        else ((prev - prev_prev) * (1 + tasa_crecimiento)) + prev
    proyectarGo fcf_actual tasa_crecimiento n (fcf :: proyecciones)

/-- Embeds proyectar_fcf (src/dcf_core/finanzas.py lines 41-58); anios is
the horizon parameter spelled años in the source, which defaults it to 5;
here it is always passed explicitly. -/
noncomputable def proyectar_fcf (fcf_actual tasa_crecimiento : ℝ)
    (anios : ℕ) : List ℝ :=
  proyectarGo fcf_actual tasa_crecimiento anios []

/-- Embeds the sanitize helper of calcular_crecimientos
(src/dcf_core/finanzas.py lines 71-82): None becomes the default 0.05.
The complex, type-error and NaN/Infinity branches of the source concern
Python floats only and are unreachable over ℝ. -/
noncomputable def sanitize (valor : Option ℝ) : ℝ :=
  valor.getD 0.05

/-- Embeds calcular_crecimientos (src/dcf_core/finanzas.py lines 63-111).
An absent series (None) yields the empty value list; entries are already
numbers in the embedding, so the float-coercion of the source is identity.
Returns (cagr, promedio). -/
noncomputable def calcular_crecimientos (fcf_series : Option (List ℝ)) :
    ℝ × ℝ :=
  let valores := fcf_series.getD []
  if 1 < valores.length then
    let primero := valores.headD 0
    let ultimo := valores.getLastD 0
    let cagr_calc : Option ℝ :=
      if ultimo ≠ 0 ∧ 0 < primero ∧ 0 < ultimo then
        let exponente : ℝ := 1 / ((valores.length : ℝ) - 1)
        let cociente := primero / ultimo
        if 0 < cociente then some (cociente ^ exponente - 1) else none
      else none
    let valores_cronologicos := valores.reverse
    let tasas : List ℝ :=
      (valores_cronologicos.zip valores_cronologicos.tail).filterMap
        (fun par =>
          if |par.1| = 0 then none
          else some ((par.2 - par.1) / |par.1|))
    let promedio_calc : Option ℝ :=
      if tasas = [] then none else some (tasas.sum / (tasas.length : ℝ))
    (sanitize cagr_calc, sanitize promedio_calc)
  else (0.05, 0.05)

/-- Present value of the explicit projection, the generator expression of
calcular_valor_intrinseco (src/dcf_core/finanzas.py lines 121-124):
each cash flow is discounted at (1+wacc)^i with i starting at 1. -/
noncomputable def vpAux (wacc : ℝ) : ℕ → List ℝ → ℝ
  | _, [] => 0
  | i, fcf :: resto => fcf / (1 + wacc) ^ i + vpAux wacc (i + 1) resto

/-- Embeds calcular_valor_intrinseco (src/dcf_core/finanzas.py lines
116-137); the source defaults crecimiento_perpetuo to 0.02, here it is
always passed explicitly.  Real division is total, so the
ZeroDivisionError branch of the source cannot fire in the embedding. -/
noncomputable def calcular_valor_intrinseco (fcf_proyectado : List ℝ)
    (wacc crecimiento_perpetuo : ℝ) : Option ℝ :=
  if fcf_proyectado = [] ∨ wacc ≤ 0 then none
  else
    let vp_fcf := vpAux wacc 1 fcf_proyectado
    let crecimiento_ajustado : Option ℝ :=
      if crecimiento_perpetuo < wacc then
        some (min crecimiento_perpetuo (wacc - 0.005))
      else none
    match crecimiento_ajustado with
    | none => none
    | some ca =>
      if ca < 0 then none
      else
        let fcf_final := fcf_proyectado.getLastD 0
        let valor_residual := (fcf_final * (1 + ca)) / (wacc - ca)
        let valor_residual_desc :=
          valor_residual / ((1 + wacc) ^ fcf_proyectado.length)
        some (vp_fcf + valor_residual_desc)

/-- Classification outcomes of analizar_empresa
(src/dcf_core/empresa.py lines 547-554). -/
inductive Estado
  | SUBVALUADA
  | SOBREVALUADA
  | RAZONABLE
deriving DecidableEq

/-- Embeds the estado computation of analizar_empresa
(src/dcf_core/empresa.py lines 547-554): estado stays None unless the
per-share value is defined and the price is truthy (nonzero). -/
noncomputable def estado_valuacion (valor_por_accion : Option ℝ)
    (precio : ℝ) : Option Estado :=
  match valor_por_accion with
  | none => none
  | some v =>
    if precio ≠ 0 then
      if precio * 1.1 < v then some Estado.SUBVALUADA
      else if v < precio * 0.9 then some Estado.SOBREVALUADA
      else some Estado.RAZONABLE
    else none

/-- Embeds the diferencia computation of analizar_empresa
(src/dcf_core/empresa.py lines 218-220): defined whenever the per-share
value is, regardless of the price. -/
noncomputable def diferencia (valor_por_accion : Option ℝ) (precio : ℝ) :
    Option ℝ :=
  match valor_por_accion with
  | none => none
  | some v => some (v - precio)

/-- Embeds the diferencia_pct computation of analizar_empresa
(src/dcf_core/empresa.py lines 222-224): requires diferencia defined and a
truthy (nonzero) price. -/
noncomputable def diferencia_pct (valor_por_accion : Option ℝ)
    (precio : ℝ) : Option ℝ :=
  match diferencia valor_por_accion precio with
  | none => none
  | some d => if precio ≠ 0 then some ((d / precio) * 100) else none

/-- Spec-side rate list for the average growth, written as the spec reads:
walk the chronological series, and for each consecutive pair whose first
element is nonzero collect (curr - prev) / |prev|, skipping the others. -/
noncomputable def tasasSpec : List ℝ → List ℝ
  | [] => []
  | [_] => []
  | a :: b :: resto =>
    if a = 0 then tasasSpec (b :: resto)
    else ((b - a) / |a|) :: tasasSpec (b :: resto)

/-- Spec-side state of the projection recurrence: proyPar f t i is the
pair (value two periods back, value at index i), with f itself playing
the two-back role at indices 0 and 1, exactly as the recurrence of the
spec describes proyectar_fcf. -/
noncomputable def proyPar (fcf_actual tasa : ℝ) : ℕ → ℝ × ℝ
  | 0 => (fcf_actual,
      if 0 < fcf_actual then fcf_actual * (1 + tasa)
      else (-fcf_actual * tasa) + fcf_actual)
  | i + 1 =>
    ((proyPar fcf_actual tasa i).2,
      if 0 < (proyPar fcf_actual tasa i).2 then
        (proyPar fcf_actual tasa i).2 * (1 + tasa)
      else
        ((proyPar fcf_actual tasa i).2 - (proyPar fcf_actual tasa i).1)
          * (1 + tasa) + (proyPar fcf_actual tasa i).2)

/-- Spec-side projected value at 0-based index i. -/
noncomputable def proyVal (fcf_actual tasa : ℝ) (i : ℕ) : ℝ :=
  (proyPar fcf_actual tasa i).2

/-- C7: calcular_wacc returns 0 on a degenerate capital structure
(debt + equity = 0) and otherwise the weighted average of the CAPM cost of
equity and the after-tax cost of debt; with debt = 0 and nonzero equity it
collapses to the cost of equity. -/
theorem c7_calcular_wacc_spec (beta debt equity cost_of_debt tax_rate
    rf mr : ℝ) :
    (debt + equity = 0 →
      calcular_wacc beta debt equity cost_of_debt tax_rate rf mr = 0) ∧
    (debt + equity ≠ 0 →
      calcular_wacc beta debt equity cost_of_debt tax_rate rf mr =
        (equity / (equity + debt)) * (rf + beta * (mr - rf))
          + (debt / (equity + debt)) * cost_of_debt * (1 - tax_rate)) ∧
    (debt = 0 → equity ≠ 0 →
      calcular_wacc beta debt equity cost_of_debt tax_rate rf mr =
        rf + beta * (mr - rf)) := by
  refine ⟨?_, ?_, ?_⟩
  · intro h
    simp only [calcular_wacc]
    rw [if_pos (by linarith)]
  · intro h
    simp only [calcular_wacc]
    rw [if_neg (fun hc => h (by linarith))]
  · intro hd he
    subst hd
    simp only [calcular_wacc]
    rw [if_neg (by simpa using he)]
    field_simp

/-- Witness for c7_calcular_wacc_spec: the all-equity scenario of the spec
(beta 1, equity 1000, rf 4%, market 8%) gives wacc = capm = 8%, and the
degenerate structure gives 0. -/
theorem c7_calcular_wacc_spec_witness :
    calcular_wacc 1 0 1000 0.05 0.25 0.04 0.08 = 0.08 ∧
    calcular_wacc 1 0 0 0.05 0.25 0.04 0.08 = 0 := by
  constructor
  · have h := (c7_calcular_wacc_spec 1 0 1000 0.05 0.25 0.04 0.08).2.2
      rfl (by norm_num)
    rw [h]
    norm_num
  · exact (c7_calcular_wacc_spec 1 0 0 0.05 0.25 0.04 0.08).1 (by norm_num)

/-- C4: a historical series with fewer than two values, the empty series
and the absent series included, makes calcular_crecimientos fall back to
the default pair (0.05, 0.05). -/
theorem c4_crecimientos_default (fcf_series : Option (List ℝ))
    (h : (fcf_series.getD []).length < 2) :
    calcular_crecimientos fcf_series = (0.05, 0.05) := by
  simp only [calcular_crecimientos]
  rw [if_neg (by omega)]

/-- Witness for c4_crecimientos_default: the absent series has value list
of length 0 and yields exactly (0.05, 0.05). -/
theorem c4_crecimientos_default_witness :
    ((none : Option (List ℝ)).getD []).length < 2 ∧
    calcular_crecimientos none = (0.05, 0.05) :=
  ⟨by simp, c4_crecimientos_default none (by simp)⟩

/-- C10: with a defined per-share value and a price of exactly 0, the
estado and diferencia_pct stay None (price 0 is falsy), while diferencia
is still computed as the per-share value minus 0. -/
theorem c10_precio_cero (v : ℝ) :
    estado_valuacion (some v) 0 = none ∧
    diferencia_pct (some v) 0 = none ∧
    diferencia (some v) 0 = some (v - 0) := by
  refine ⟨?_, ?_, rfl⟩
  · simp [estado_valuacion]
  · simp [diferencia_pct, diferencia]

/-- Helper: exact characterization of the None outcomes of
calcular_valor_intrinseco. -/
lemma valor_intrinseco_eq_none_iff (fcf : List ℝ) (wacc g : ℝ) :
    calcular_valor_intrinseco fcf wacc g = none ↔
      fcf = [] ∨ wacc ≤ 0 ∨ wacc ≤ g ∨ min g (wacc - 0.005) < 0 := by
  simp only [calcular_valor_intrinseco]
  by_cases h0 : fcf = [] ∨ wacc ≤ 0
  · rw [if_pos h0]
    simp only [true_iff]
    tauto
  · rw [if_neg h0]
    push_neg at h0
    by_cases hg : g < wacc
    · rw [if_pos hg]
      by_cases hmin : min g (wacc - 0.005) < 0
      · simp only [if_pos hmin]
        tauto
      · simp only [if_neg hmin]
        simp only [reduceCtorEq, false_iff]
        push_neg
        exact ⟨h0.1, h0.2, hg, by linarith [not_lt.mp hmin]⟩
    · simp only [if_neg hg]
      simp only [true_iff]
      exact Or.inr (Or.inr (Or.inl (not_lt.mp hg)))

/-- C1 counterexample: with wacc = 0.02 and perpetuity growth 0.016 the
growth is at least wacc - 0.005, yet the valuation is a number (20000),
not None: the code clamps the growth to wacc - 0.005 instead of refusing. -/
theorem c1_counterexample :
    (0.02 : ℝ) - 0.005 ≤ 0.016 ∧
    calcular_valor_intrinseco [100] 0.02 0.016 = some 20000 := by
  constructor
  · norm_num
  · simp only [calcular_valor_intrinseco, vpAux]
    norm_num [min_def, List.getLastD]

/-- C1 (amended): calcular_valor_intrinseco returns None exactly when the
projection is empty, wacc ≤ 0, the perpetuity growth is at least wacc, or
the clamped growth min(growth, wacc - 0.005) is negative; a growth in
[wacc - 0.005, wacc) is clamped, not rejected. -/
theorem c1_valor_intrinseco_none (fcf : List ℝ) (wacc g : ℝ) :
    calcular_valor_intrinseco fcf wacc g = none ↔
      fcf = [] ∨ wacc ≤ 0 ∨ wacc ≤ g ∨ min g (wacc - 0.005) < 0 :=
  valor_intrinseco_eq_none_iff fcf wacc g

/-- C9: whenever calcular_valor_intrinseco returns a value, the terminal
divisor wacc - min(growth, wacc - 0.005) is at least 0.005, so the
terminal-value division never divides by zero (the ZeroDivisionError
handler of the source is unreachable); consequently any wacc below 0.005
yields None. -/
theorem c9_divisor_acotado (fcf : List ℝ) (wacc g : ℝ) :
    ((calcular_valor_intrinseco fcf wacc g).isSome →
      0.005 ≤ wacc - min g (wacc - 0.005)) ∧
    (wacc < 0.005 → calcular_valor_intrinseco fcf wacc g = none) := by
  constructor
  · intro hs
    have hne : calcular_valor_intrinseco fcf wacc g ≠ none := by
      intro hc
      rw [hc] at hs
      exact Bool.noConfusion hs
    rw [Ne, valor_intrinseco_eq_none_iff] at hne
    push_neg at hne
    have hmin : 0 ≤ min g (wacc - 0.005) := hne.2.2.2
    have := min_le_right g (wacc - 0.005)
    linarith
  · intro hw
    rw [valor_intrinseco_eq_none_iff]
    by_cases h0 : wacc ≤ 0
    · exact Or.inr (Or.inl h0)
    · push_neg at h0
      refine Or.inr (Or.inr (Or.inr ?_))
      have := min_le_right g (wacc - 0.005)
      linarith

/-- Witness for c9_divisor_acotado: at fcf [100], wacc 0.02, growth 0.016
the result is defined and the divisor bound holds; at wacc 0.004 < 0.005
the result is None. -/
theorem c9_divisor_acotado_witness :
    (0.005 : ℝ) ≤ 0.02 - min 0.016 (0.02 - 0.005) ∧
    calcular_valor_intrinseco [100] 0.004 0.02 = none := by
  constructor
  · refine (c9_divisor_acotado [100] 0.02 0.016).1 ?_
    simp only [calcular_valor_intrinseco, vpAux]
    norm_num [min_def]
  · exact (c9_divisor_acotado [100] 0.004 0.02).2 (by norm_num)

/-- Helper: closed form of the generator-expression sum vpAux. -/
lemma vpAux_eq_sum (w : ℝ) (k : ℕ) (l : List ℝ) :
    vpAux w (k + 1) l =
      ∑ i ∈ Finset.range l.length, l.getD i 0 / (1 + w) ^ (i + k + 1) := by
  induction l generalizing k with
  | nil => simp [vpAux]
  | cons a resto ih =>
    rw [vpAux, ih (k + 1), List.length_cons, Finset.sum_range_succ']
    simp only [List.getD_cons_succ, List.getD_cons_zero]
    have hexp : ∀ i : ℕ, i + 1 + k + 1 = i + (k + 1) + 1 := by omega
    rw [add_comm]
    congr 1
    · refine Finset.sum_congr rfl ?_
      intro i _
      rw [hexp i]
    · norm_num

/-- C2: on the defined path (nonempty projection, positive wacc, growth
below wacc, nonnegative clamped growth) calcular_valor_intrinseco is the
discounted sum of the projected cash flows plus the discounted terminal
value built from the clamped growth. -/
theorem c2_valor_intrinseco_formula (fcf : List ℝ) (wacc g : ℝ)
    (h1 : fcf ≠ []) (h2 : 0 < wacc) (h3 : g < wacc)
    (h4 : 0 ≤ min g (wacc - 0.005)) :
    calcular_valor_intrinseco fcf wacc g =
      some ((∑ i ∈ Finset.range fcf.length,
          fcf.getD i 0 / (1 + wacc) ^ (i + 1))
        + (fcf.getLastD 0 * (1 + min g (wacc - 0.005))
            / (wacc - min g (wacc - 0.005))) / (1 + wacc) ^ fcf.length) := by
  simp only [calcular_valor_intrinseco]
  rw [if_neg (by push_neg; exact ⟨h1, h2⟩)]
  rw [if_pos h3]
  simp only [if_neg (not_lt.mpr h4)]
  have hvp := vpAux_eq_sum wacc 0 fcf
  simp only [Nat.zero_add, add_zero] at hvp
  rw [hvp]

/-- Witness for c2_valor_intrinseco_formula: at fcf [100], wacc 0.02,
growth 0.016 all hypotheses hold and the formula evaluates to 20000. -/
theorem c2_valor_intrinseco_formula_witness :
    ([100] : List ℝ) ≠ [] ∧
    calcular_valor_intrinseco [100] 0.02 0.016 = some 20000 := by
  refine ⟨by simp, ?_⟩
  have h := c2_valor_intrinseco_formula [100] 0.02 0.016 (by simp)
    (by norm_num) (by norm_num) (le_min (by norm_num) (by norm_num))
  rw [h]
  norm_num [min_def, List.getLastD]

/-- Helper: the zip-with-tail filterMap of the source computes exactly the
spec-side rate list. -/
lemma zip_tail_filterMap_eq_tasasSpec (l : List ℝ) :
    (l.zip l.tail).filterMap
      (fun par =>
        if |par.1| = 0 then none
        else some ((par.2 - par.1) / |par.1|)) = tasasSpec l := by
  induction l with
  | nil => simp [tasasSpec]
  | cons a resto ih =>
    cases resto with
    | nil => simp [tasasSpec]
    | cons b cola =>
      simp only [List.tail_cons, List.zip_cons_cons, List.filterMap_cons]
      by_cases ha : a = 0
      · rw [if_pos (by rw [ha]; simp)]
        rw [tasasSpec, if_pos ha]
        simpa using ih
      · rw [if_neg (by simpa [abs_eq_zero] using ha)]
        rw [tasasSpec, if_neg ha]
        simpa using congrArg (List.cons ((b - a) / |a|)) ih

/-- C6: for a series of length at least 2, the average growth is the
arithmetic mean of the chronological consecutive rates with zero
predecessors skipped, and the default 0.05 when every pair is skipped. -/
theorem c6_promedio_spec (valores : List ℝ) (h : 2 ≤ valores.length) :
    (calcular_crecimientos (some valores)).2 =
      if tasasSpec valores.reverse = [] then 0.05
      else (tasasSpec valores.reverse).sum
        / ((tasasSpec valores.reverse).length : ℝ) := by
  simp only [calcular_crecimientos, Option.getD_some]
  rw [if_pos (by omega)]
  simp only [zip_tail_filterMap_eq_tasasSpec]
  by_cases ht : tasasSpec valores.reverse = []
  · rw [if_pos ht, if_pos ht]
    rfl
  · rw [if_neg ht, if_neg ht]
    rfl

/-- Witness for c6_promedio_spec: the series [1, 2] (most recent first) has
the single chronological pair (2, 1) and average growth (1-2)/|2| = -0.5. -/
theorem c6_promedio_spec_witness :
    (calcular_crecimientos (some [1, 2])).2 = -0.5 := by
  have h := c6_promedio_spec [1, 2] (by simp)
  rw [h]
  norm_num [tasasSpec]

/-- C5: for a series of length at least 2 with positive most-recent and
oldest values, the CAGR is (first/last)^(1/(length-1)) - 1; with either
endpoint non-positive it is the default 0.05.  Over ℝ the computed power
is always finite, so the non-finite sanitization of the source never
fires. -/
theorem c5_cagr_spec (valores : List ℝ) (h : 2 ≤ valores.length) :
    (0 < valores.headD 0 → 0 < valores.getLastD 0 →
      (calcular_crecimientos (some valores)).1 =
        (valores.headD 0 / valores.getLastD 0)
          ^ ((1 : ℝ) / ((valores.length : ℝ) - 1)) - 1) ∧
    (¬ (0 < valores.headD 0 ∧ 0 < valores.getLastD 0) →
      (calcular_crecimientos (some valores)).1 = 0.05) := by
  simp only [calcular_crecimientos, Option.getD_some]
  rw [if_pos (by omega)]
  constructor
  · intro hp hl
    rw [if_pos ⟨ne_of_gt hl, hp, hl⟩]
    rw [if_pos (div_pos hp hl)]
    rfl
  · intro hn
    rw [if_neg (by tauto)]
    rfl

/-- Witness for c5_cagr_spec: the series [2, 1] has first = 2, last = 1,
one period, so CAGR = (2/1)^1 - 1 = 1; the series [1, -1] has a
non-positive endpoint and falls back to 0.05. -/
theorem c5_cagr_spec_witness :
    (calcular_crecimientos (some [2, 1])).1 = 1 ∧
    (calcular_crecimientos (some [1, -1])).1 = 0.05 := by
  constructor
  · have h := (c5_cagr_spec [2, 1] (by simp)).1 (by norm_num) (by norm_num)
    rw [h]
    norm_num [Real.rpow_one]
  · exact (c5_cagr_spec [1, -1] (by simp)).2 (by norm_num)

/-- C8 counterexample: at intrinsic value -1 and price -1 the intrinsic
value is below 0.9 times the price, yet the code classifies SUBVALUADA
(because -1 > -1.1 = 1.1 * price), not SOBREVALUADA as the claim's
iff for overvaluation would require of every nonzero price. -/
theorem c8_counterexample :
    (-1 : ℝ) ≠ 0 ∧ (-1 : ℝ) < 0.9 * (-1) ∧
    estado_valuacion (some (-1)) (-1) = some Estado.SUBVALUADA ∧
    estado_valuacion (some (-1)) (-1) ≠ some Estado.SOBREVALUADA := by
  refine ⟨by norm_num, by norm_num, ?_, ?_⟩
  · simp only [estado_valuacion]
    rw [if_pos (by norm_num)]
    rw [if_pos (by norm_num)]
  · simp only [estado_valuacion]
    rw [if_pos (by norm_num)]
    rw [if_pos (by norm_num)]
    simp

/-- C8 (amended): for every positive price the classification is
SUBVALUADA iff the intrinsic value exceeds 1.1 times the price,
SOBREVALUADA iff it is below 0.9 times the price, RAZONABLE iff it lies
in [0.9, 1.1] times the price; a missing intrinsic value or a price of 0
gives no classification. -/
theorem c8_estado_spec (v p : ℝ) :
    (0 < p →
      ((estado_valuacion (some v) p = some Estado.SUBVALUADA ↔
          1.1 * p < v) ∧
       (estado_valuacion (some v) p = some Estado.SOBREVALUADA ↔
          v < 0.9 * p) ∧
       (estado_valuacion (some v) p = some Estado.RAZONABLE ↔
          0.9 * p ≤ v ∧ v ≤ 1.1 * p))) ∧
    estado_valuacion none p = none ∧
    estado_valuacion (some v) 0 = none := by
  refine ⟨?_, rfl, by simp [estado_valuacion]⟩
  intro hp
  simp only [estado_valuacion]
  rw [if_pos (ne_of_gt hp)]
  by_cases h1 : p * 1.1 < v
  · rw [if_pos h1]
    refine ⟨⟨fun _ => by linarith, fun _ => rfl⟩,
      ⟨fun hc => absurd hc (by simp), fun hc => by linarith⟩,
      ⟨fun hc => absurd hc (by simp), fun hc => by
        rcases hc with ⟨_, hb⟩
        linarith⟩⟩
  · rw [if_neg h1]
    push_neg at h1
    by_cases h2 : v < p * 0.9
    · rw [if_pos h2]
      refine ⟨⟨fun hc => absurd hc (by simp), fun hc => by linarith⟩,
        ⟨fun _ => by linarith, fun _ => rfl⟩,
        ⟨fun hc => absurd hc (by simp), fun hc => by
          rcases hc with ⟨ha, _⟩
          linarith⟩⟩
    · rw [if_neg h2]
      push_neg at h2
      refine ⟨⟨fun hc => absurd hc (by simp), fun hc => by linarith⟩,
        ⟨fun hc => absurd hc (by simp), fun hc => by linarith⟩,
        ⟨fun _ => ⟨by linarith, by linarith⟩, fun _ => rfl⟩⟩

/-- Witness for c8_estado_spec: at price 50 the value 100 is classified
SUBVALUADA, the value 40 SOBREVALUADA, the value 50 RAZONABLE, and a
missing value gives none. -/
theorem c8_estado_spec_witness :
    estado_valuacion (some 100) 50 = some Estado.SUBVALUADA ∧
    estado_valuacion (some 40) 50 = some Estado.SOBREVALUADA ∧
    estado_valuacion (some 50) 50 = some Estado.RAZONABLE ∧
    estado_valuacion none (50 : ℝ) = none :=
  ⟨((c8_estado_spec 100 50).1 (by norm_num)).1.mpr (by norm_num),
   ((c8_estado_spec 40 50).1 (by norm_num)).2.1.mpr (by norm_num),
   ((c8_estado_spec 50 50).1 (by norm_num)).2.2.mpr
     ⟨by norm_num, by norm_num⟩,
   (c8_estado_spec 0 50).2.1⟩

/-- Helper: reversing the list of the first m+1 spec-side values exposes
the most recent value at the head. -/
lemma revList_succ (f t : ℝ) (m : ℕ) :
    ((List.range (m + 1)).map (proyVal f t)).reverse =
      proyVal f t m :: ((List.range m).map (proyVal f t)).reverse := by
  rw [List.range_succ, List.map_append, List.reverse_append]
  simp

/-- Helper: loop invariant of proyectarGo: starting from the reversed list
of the first k+1 spec-side values, n more iterations produce the first
k+1+n values in order. -/
lemma proyectarGo_inv (f t : ℝ) (n : ℕ) :
    ∀ k, proyectarGo f t n (((List.range (k + 1)).map (proyVal f t)).reverse)
      = (List.range (k + 1 + n)).map (proyVal f t) := by
  induction n with
  | zero =>
    intro k
    rw [proyectarGo]
    simp
  | succ n ih =>
    intro k
    rw [revList_succ]
    cases k with
    | zero =>
      simp only [List.range_zero, List.map_nil, List.reverse_nil]
      have hstep : proyectarGo f t (n + 1) [proyVal f t 0] =
          proyectarGo f t n [proyVal f t 1, proyVal f t 0] := by
        rw [proyectarGo]
        rfl
      rw [hstep]
      have h2 := ih 1
      have hl : ((List.range (1 + 1)).map (proyVal f t)).reverse =
          [proyVal f t 1, proyVal f t 0] := by
        rw [revList_succ, revList_succ]
        simp
      rw [hl] at h2
      rw [show (0 : ℕ) + 1 + (n + 1) = 1 + 1 + n from by omega]
      exact h2
    | succ j =>
      rw [revList_succ]
      have hstep : ∀ rest : List ℝ, proyectarGo f t (n + 1)
          (proyVal f t (j + 1) :: proyVal f t j :: rest) =
          proyectarGo f t n (proyVal f t (j + 1 + 1) ::
            proyVal f t (j + 1) :: proyVal f t j :: rest) := by
        intro rest
        rw [proyectarGo]
        rfl
      rw [hstep]
      have h2 := ih (j + 1 + 1)
      rw [revList_succ, revList_succ, revList_succ] at h2
      rw [show j + 1 + 1 + (n + 1) = j + 1 + 1 + 1 + n from by omega]
      exact h2

/-- Helper: proyectar_fcf is the list of the first n spec-side values. -/
lemma proyectar_eq_map (f t : ℝ) (n : ℕ) :
    proyectar_fcf f t n = (List.range n).map (proyVal f t) := by
  cases n with
  | zero => simp [proyectar_fcf, proyectarGo]
  | succ n =>
    simp only [proyectar_fcf]
    have hstep : proyectarGo f t (n + 1) [] =
        proyectarGo f t n [proyVal f t 0] := by
      rw [proyectarGo]
      rfl
    rw [hstep]
    have h2 := proyectarGo_inv f t n 0
    have hl : ((List.range (0 + 1)).map (proyVal f t)).reverse =
        [proyVal f t 0] := by
      rw [revList_succ]
      simp
    rw [hl, show (0 : ℕ) + 1 + n = n + 1 from by omega] at h2
    exact h2

/-- Helper: indexing the map over a range. -/
lemma getD_map_range (g : ℕ → ℝ) {n i : ℕ} (h : i < n) :
    ((List.range n).map g).getD i 0 = g i := by
  rw [List.getD_eq_getElem?_getD, List.getElem?_map, List.getElem?_range h]
  rfl

/-- C3: proyectar_fcf always has length equal to the horizon, and its
entries satisfy the sign-dependent recurrence: the first value grows a
positive current FCF multiplicatively and dampens a non-positive one, and
each later value grows a positive predecessor multiplicatively and
otherwise extrapolates from the difference with the value two periods
back (the current FCF when only one projection exists). -/
theorem c3_proyectar_fcf_spec (f t : ℝ) (n : ℕ) :
    (proyectar_fcf f t n).length = n ∧
    (∀ i, i < n → (proyectar_fcf f t n).getD i 0 =
      if i = 0 then
        if 0 < f then f * (1 + t) else (-f * t) + f
      else
        if 0 < (proyectar_fcf f t n).getD (i - 1) 0 then
          (proyectar_fcf f t n).getD (i - 1) 0 * (1 + t)
        else
          ((proyectar_fcf f t n).getD (i - 1) 0 -
              (if i = 1 then f else (proyectar_fcf f t n).getD (i - 2) 0))
            * (1 + t) + (proyectar_fcf f t n).getD (i - 1) 0) := by
  have hm := proyectar_eq_map f t n
  constructor
  · rw [hm]
    simp
  · intro i hi
    rw [hm]
    rw [getD_map_range (proyVal f t) hi]
    cases i with
    | zero =>
      simp [proyVal, proyPar]
    | succ j =>
      rw [if_neg (by omega : ¬ j + 1 = 0)]
      rw [show j + 1 - 1 = j from rfl]
      rw [getD_map_range (proyVal f t) (by omega : j < n)]
      cases j with
      | zero =>
        rw [if_pos rfl]
        simp [proyVal, proyPar]
      | succ k =>
        rw [if_neg (by omega : ¬ k + 1 + 1 = 1)]
        rw [show k + 1 + 1 - 2 = k from by omega]
        rw [getD_map_range (proyVal f t) (by omega : k < n)]
        simp [proyVal, proyPar]

/-- Witness for c3_proyectar_fcf_spec: a negative current FCF of -100 at
growth 0.1 over a horizon of 2: length is 2, the first value is the
dampened -90, and the second follows the difference rule. -/
theorem c3_proyectar_fcf_spec_witness :
    (proyectar_fcf (-100) 0.1 2).length = 2 ∧
    (proyectar_fcf (-100) 0.1 2).getD 0 0 =
      (-(-100 : ℝ) * 0.1) + (-100) := by
  have h := c3_proyectar_fcf_spec (-100) 0.1 2
  refine ⟨h.1, ?_⟩
  have h0 := h.2 0 (by norm_num)
  rw [h0]
  norm_num

end DCF
